import Mathlib

set_option maxRecDepth 100000

/-!
Verification of the senswap-farming reward-accounting engine.

The definitions below embed the Rust sources of the repository:
  - program/src/helper/pattern.rs   (fractionalize_reward, fully_havest,
    fully_unstake, fully_stake)
  - program/src/processor.rs        (estimate_delay and the scalar checks of
    the pool constructor)
  - program/src/schema/debt.rs and program/src/schema/stake_pool.rs
    (fixed-layout record serialization)

Machine integers are embedded as Nat (u64, u128) and Int (i64, i128); the
arbitrary-precision BigInt arithmetic of the num-bigint crate is embedded as
exact Int arithmetic, with its division rounding toward zero, and every
fallible narrowing conversion (to_u64, to_u128, to_i128) is an explicit
Option-valued range check.
-/

/-- Fixed-point scale of the engine: ten to the eighteenth power. -/
def PRECISION : Int := 1000000000000000000

/-- Division of arbitrary-precision integers exactly as the num-bigint crate
performs it: the quotient is rounded toward zero. -/
def bigDiv (a b : Int) : Int := Int.tdiv a b

/-- The fallible BigInt to u64 conversion (to_u64 in Rust): none out of range. -/
def bigToU64 (x : Int) : Option Nat :=
  if 0 ≤ x ∧ x < 2 ^ 64 then some x.toNat else none

/-- The fallible BigInt to u128 conversion (to_u128 in Rust): none out of range. -/
def bigToU128 (x : Int) : Option Nat :=
  if 0 ≤ x ∧ x < 2 ^ 128 then some x.toNat else none

/-- The fallible BigInt to i128 conversion (to_i128 in Rust): none out of range. -/
def bigToI128 (x : Int) : Option Int :=
  if -(2 ^ 127) ≤ x ∧ x < 2 ^ 127 then some x else none

/-- Pattern::fractionalize_reward from pattern.rs. Given the pool reward rate
and the total share count, returns the scaled reward-per-share ratio together
with the precision constant. A zero total returns the zero sentinel ratio. -/
def fractionalize_reward (reward total_shares : Nat) : Option (Int × Int) :=
  if total_shares = 0 then some (0, PRECISION)
  else some (bigDiv (PRECISION * reward) total_shares, PRECISION)

/-- Pattern::fully_havest from pattern.rs. Settles the reward of a
participant: fails unless the total share count is unchanged, recomputes the
debt, and fails if the recomputed debt fell below the stored one. -/
def fully_havest (shares debt : Nat) (compensation : Int)
    (delay reward current_total_shares next_total_shares : Nat) :
    Option (Nat × Nat × Int) :=
  if current_total_shares ≠ next_total_shares then none else
  match fractionalize_reward reward current_total_shares with
  | none => none
  | some (current_fraction, precision) =>
    match bigToU128 (bigDiv ((current_fraction * delay + compensation) * shares) precision) with
    | none => none
    | some new_debt =>
      if debt > new_debt then none else
      match bigToU64 shares, bigToI128 compensation with
      | some s, some c => some (s, new_debt, c)
      | _, _ => none

/-- Pattern::fully_unstake from pattern.rs. Removes the participant shares
from the pool total: fails if the total would grow, re-derives the expected
debt with the settle formula and fails unless the stored debt matches, then
corrects the pool compensation. The inner conversions of the logging call in
the nonzero branch are kept, as each one propagates failure. -/
def fully_unstake (shares debt : Nat) (compensation : Int)
    (delay reward current_total_shares next_total_shares : Nat) :
    Option (Nat × Nat × Int) :=
  if next_total_shares > current_total_shares then none else
  match fractionalize_reward reward current_total_shares,
        fractionalize_reward reward next_total_shares with
  | some (current_fraction, precision), some (next_fraction, _) =>
    match bigToU128 (bigDiv ((current_fraction * delay + compensation) * shares) precision) with
    | none => none
    | some expected_debt =>
      if debt ≠ expected_debt then none else
      match (if next_fraction = 0 then some (0 : Int) else
             match bigToI128 compensation, bigToU128 current_fraction, bigToU128 next_fraction with
             | some _, some _, some _ =>
               some (compensation - (next_fraction - current_fraction) * delay)
             | _, _, _ => none) with
      | none => none
      | some new_compensation =>
        match bigToI128 new_compensation with
        | some nc => some (0, 0, nc)
        | none => none
  | _, _ => none

/-- Pattern::fully_stake from pattern.rs. Adds the participant shares to the
pool total: fails if the total would shrink or the stored debt is nonzero,
corrects the pool compensation and computes the fresh debt. -/
def fully_stake (shares debt : Nat) (compensation : Int)
    (delay reward current_total_shares next_total_shares : Nat) :
    Option (Nat × Nat × Int) :=
  if current_total_shares > next_total_shares ∨ debt ≠ 0 then none else
  match fractionalize_reward reward current_total_shares,
        fractionalize_reward reward next_total_shares with
  | some (current_fraction, precision), some (next_fraction, _) =>
    match (if current_fraction = 0 then some (0 : Int) else
           match bigToI128 compensation, bigToU128 current_fraction, bigToU128 next_fraction with
           | some _, some _, some _ =>
             some (compensation + (current_fraction - next_fraction) * delay)
           | _, _, _ => none) with
    | none => none
    | some new_compensation =>
      match bigToU128 (bigDiv ((next_fraction * delay + new_compensation) * shares) precision) with
      | none => none
      | some new_debt =>
        match bigToI128 new_compensation with
        | some nc => some (shares, new_debt, nc)
        | none => none
  | _, _ => none

/-!
Spec-side formulas, written exactly as the specification words them, with
floor division; they are compared with the source-derived functions above.
-/

/-- The fraction formula as the specification words it:
floor(rewardRate times ten to the eighteenth over totalShares), with the zero
sentinel on an empty pool. -/
def spec_fraction (reward total_shares : Nat) : Int :=
  if total_shares = 0 then 0
  else Int.fdiv ((reward : Int) * PRECISION) (total_shares : Int)

/-- The Settle newDebt formula as the specification words it:
floor((fraction(rewardRate, totalShares) times delay plus compensation) times
shares over PRECISION). -/
def spec_settle_newDebt (shares : Nat) (compensation : Int)
    (delay reward total_shares : Nat) : Int :=
  Int.fdiv ((spec_fraction reward total_shares * delay + compensation) * shares) PRECISION

/-!
Bridging lemmas between the embedded conversions and plain facts.
-/

theorem bigToU64_eq_some {x : Int} {n : Nat} (h : bigToU64 x = some n) :
    (n : Int) = x ∧ 0 ≤ x ∧ x < 2 ^ 64 := by
  unfold bigToU64 at h
  split at h
  · rename_i hx
    refine ⟨?_, hx.1, hx.2⟩
    cases h
    exact Int.toNat_of_nonneg hx.1
  · exact Option.noConfusion h

theorem bigToU128_eq_some {x : Int} {n : Nat} (h : bigToU128 x = some n) :
    (n : Int) = x ∧ 0 ≤ x ∧ x < 2 ^ 128 := by
  unfold bigToU128 at h
  split at h
  · rename_i hx
    refine ⟨?_, hx.1, hx.2⟩
    cases h
    exact Int.toNat_of_nonneg hx.1
  · exact Option.noConfusion h

theorem bigToI128_eq_some {x y : Int} (h : bigToI128 x = some y) :
    y = x ∧ -(2 ^ 127) ≤ x ∧ x < 2 ^ 127 := by
  unfold bigToI128 at h
  split at h
  · rename_i hx
    cases h
    exact ⟨rfl, hx.1, hx.2⟩
  · exact Option.noConfusion h

/-- The source ratio refines the spec ratio: fractionalize_reward always
succeeds and its first component is exactly the spec floor formula. -/
theorem fractionalize_eq_spec (reward total_shares : Nat) :
    fractionalize_reward reward total_shares =
      some (spec_fraction reward total_shares, PRECISION) := by
  unfold fractionalize_reward spec_fraction
  split
  · rfl
  · rename_i hts
    have hr : (0 : Int) ≤ PRECISION * (reward : Int) :=
      mul_nonneg (by norm_num [PRECISION]) (Int.ofNat_nonneg _)
    have hts' : (0 : Int) ≤ (total_shares : Int) := Int.ofNat_nonneg _
    rw [bigDiv, Int.tdiv_eq_ediv hr hts', Int.fdiv_eq_ediv _ hts', mul_comm]

/-- The spec ratio is never negative. -/
theorem spec_fraction_nonneg (reward total_shares : Nat) :
    0 ≤ spec_fraction reward total_shares := by
  unfold spec_fraction
  split
  · exact le_refl 0
  · have hr : (0 : Int) ≤ (reward : Int) * PRECISION :=
      mul_nonneg (Int.ofNat_nonneg _) (by norm_num [PRECISION])
    have hts : (0 : Int) ≤ (total_shares : Int) := Int.ofNat_nonneg _
    rw [Int.fdiv_eq_ediv _ hts]
    exact Int.ediv_nonneg hr hts

/-- C2: the fraction calculator returns the floor ratio on a nonempty pool
and the zero sentinel (success, not failure) on an empty pool. -/
theorem c2_fraction_spec :
    (∀ reward total_shares : Nat, 0 < total_shares →
      fractionalize_reward reward total_shares =
        some (Int.fdiv ((reward : Int) * PRECISION) (total_shares : Int), PRECISION)) ∧
    (∀ reward : Nat, fractionalize_reward reward 0 = some (0, PRECISION)) := by
  constructor
  · intro reward total_shares hts
    rw [fractionalize_eq_spec]
    unfold spec_fraction
    rw [if_neg (by omega)]
  · intro reward
    rfl

/-- C2 witness: concrete scenario, reward 100 over 10 shares. -/
theorem c2_fraction_spec_witness :
    fractionalize_reward 100 10 =
      some (Int.fdiv ((100 : Int) * PRECISION) (10 : Int), PRECISION) :=
  c2_fraction_spec.1 100 10 (by decide)

theorem bigDiv_eq_floor {a : Int} (ha : 0 ≤ a) :
    bigDiv a PRECISION = Int.fdiv a PRECISION := by
  have hp : (0 : Int) ≤ PRECISION := by norm_num [PRECISION]
  rw [bigDiv, Int.tdiv_eq_ediv ha hp, Int.fdiv_eq_ediv _ hp]

/-- Inversion of a successful fully_havest call: the guard held, the outputs
pass the inputs through, and the new debt is the truncated quotient, at least
as large as the stored debt. -/
theorem fully_havest_some {shares debt : Nat} {compensation : Int}
    {delay reward T T' : Nat} {s2 nd : Nat} {c2 : Int}
    (h : fully_havest shares debt compensation delay reward T T' = some (s2, nd, c2)) :
    T = T' ∧ s2 = shares ∧ c2 = compensation ∧
    (nd : Int) = bigDiv ((spec_fraction reward T * delay + compensation) * shares) PRECISION ∧
    debt ≤ nd := by
  unfold fully_havest at h
  rw [fractionalize_eq_spec] at h
  split at h
  · exact Option.noConfusion h
  · rename_i hTT
    dsimp only at h
    split at h
    · exact Option.noConfusion h
    · rename_i nd' hnd
      split at h
      · exact Option.noConfusion h
      · rename_i hdle
        split at h
        · rename_i s' c' hs hc
          simp only [Option.some.injEq, Prod.mk.injEq] at h
          obtain ⟨he1, he2, he3⟩ := h
          subst he1; subst he2; subst he3
          have hs' := bigToU64_eq_some hs
          have hc' := bigToI128_eq_some hc
          have hnd' := bigToU128_eq_some hnd
          exact ⟨by omega, by exact_mod_cast hs'.1, hc'.1, hnd'.1, by omega⟩
        · exact Option.noConfusion h

/-- C1 (amended): whenever Settle succeeds with an unchanged total, the
returned shares and compensation are the inputs unchanged and the returned
newDebt is the quotient ((ratio times delay plus compensation) times shares)
over PRECISION rounded toward zero; this agrees with the spec floor formula
whenever that numerator is non-negative. -/
theorem c1_settle_result (shares debt : Nat) (compensation : Int)
    (delay reward T T' : Nat) (s2 nd : Nat) (c2 : Int)
    (h : fully_havest shares debt compensation delay reward T T' = some (s2, nd, c2)) :
    s2 = shares ∧ c2 = compensation ∧
    (nd : Int) = bigDiv ((spec_fraction reward T * delay + compensation) * shares) PRECISION ∧
    (0 ≤ (spec_fraction reward T * delay + compensation) * shares →
      (nd : Int) = spec_settle_newDebt shares compensation delay reward T) := by
  obtain ⟨hT, hs, hc, hnd, hdle⟩ := fully_havest_some h
  refine ⟨hs, hc, hnd, ?_⟩
  intro hnn
  rw [hnd, spec_settle_newDebt, bigDiv_eq_floor hnn]

/-- C1 witness: concrete scenario with reward 100, ten shares, delay one;
the settle output one hundred equals the spec floor formula. -/
theorem c1_settle_result_witness :
    ((100 : Nat) : Int) = spec_settle_newDebt 10 0 1 100 10 :=
  (c1_settle_result 10 0 0 1 100 10 10 10 100 0 (by rfl)).2.2.2 (by decide)

/-- C1 counterexample: with a negative compensation and delay zero the code
rounds the negative numerator toward zero and returns newDebt zero, while the
spec floor formula yields minus one. -/
theorem c1_counterexample :
    fully_havest 1 0 (-1) 0 0 1 1 = some (1, 0, -1) ∧
    spec_settle_newDebt 1 (-1) 0 0 1 = -1 ∧
    ¬(((0 : Nat) : Int) = spec_settle_newDebt 1 (-1) 0 0 1) := by
  refine ⟨by rfl, by rfl, ?_⟩
  intro hc
  rw [show spec_settle_newDebt 1 (-1) 0 0 1 = -1 from rfl] at hc
  exact absurd hc (by decide)

theorem bigDiv_le_bigDiv {a b : Int} (hab : a ≤ b) (ha : 0 ≤ bigDiv a PRECISION)
    (hb : 0 ≤ bigDiv b PRECISION) : bigDiv a PRECISION ≤ bigDiv b PRECISION := by
  have hP : (0 : Int) ≤ PRECISION := by norm_num [PRECISION]
  by_cases h0 : 0 ≤ a
  · rw [bigDiv, Int.tdiv_eq_ediv h0 hP, bigDiv, Int.tdiv_eq_ediv (le_trans h0 hab) hP]
    exact Int.ediv_le_ediv (by norm_num [PRECISION]) hab
  · push_neg at h0
    have hneg : Int.tdiv a PRECISION ≤ 0 := by
      have h1 : (0 : Int) ≤ -a := by omega
      have h2 : 0 ≤ Int.tdiv (-a) PRECISION := Int.tdiv_nonneg h1 hP
      rw [Int.neg_tdiv] at h2
      omega
    have : bigDiv a PRECISION = 0 := le_antisymm hneg ha
    rw [this]
    exact hb

/-- C5: Settle fails whenever the total share count changes, fails whenever
the recomputed debt is strictly below the stored debt, and on success the
disbursed amount newDebt minus debt is never negative. -/
theorem c5_settle_guards :
    (∀ (shares debt : Nat) (compensation : Int) (delay reward T T' : Nat),
      T ≠ T' → fully_havest shares debt compensation delay reward T T' = none) ∧
    (∀ (shares debt : Nat) (compensation : Int) (delay reward T T' : Nat) (nd : Nat),
      bigToU128 (bigDiv ((spec_fraction reward T * delay + compensation) * shares) PRECISION)
          = some nd →
      nd < debt → fully_havest shares debt compensation delay reward T T' = none) ∧
    (∀ (shares debt : Nat) (compensation : Int) (delay reward T T' : Nat)
        (s2 nd : Nat) (c2 : Int),
      fully_havest shares debt compensation delay reward T T' = some (s2, nd, c2) →
      debt ≤ nd) := by
  refine ⟨?_, ?_, ?_⟩
  · intro shares debt compensation delay reward T T' hTT
    unfold fully_havest
    rw [if_pos hTT]
  · intro shares debt compensation delay reward T T' nd hnd hlt
    unfold fully_havest
    rw [fractionalize_eq_spec]
    split
    · rfl
    · dsimp only
      rw [hnd]
      dsimp only
      rw [if_pos hlt]
  · intro shares debt compensation delay reward T T' s2 nd c2 h
    exact (fully_havest_some h).2.2.2.2

/-- C5 witness: a changed total is refused, a stored debt above the
recomputed debt is refused, and a successful settle never under-pays. -/
theorem c5_settle_guards_witness :
    fully_havest 1 0 0 0 0 1 2 = none ∧
    fully_havest 1 1 0 0 0 1 1 = none ∧ (0 : Nat) ≤ 100 :=
  ⟨c5_settle_guards.1 1 0 0 0 0 1 2 (by decide),
   c5_settle_guards.2.1 1 1 0 0 0 1 1 0 (by rfl) (by decide),
   c5_settle_guards.2.2 10 0 0 1 100 10 10 10 100 0 (by rfl)⟩

/-- C7: for fixed shares, compensation, reward rate and total, the newDebt
returned by a successful Settle is non-decreasing in delay. -/
theorem c7_settle_monotone (shares : Nat) (compensation : Int) (reward T : Nat)
    (delay1 delay2 debt1 debt2 : Nat) (x1 x2 : Nat × Nat × Int)
    (hd : delay1 ≤ delay2)
    (h1 : fully_havest shares debt1 compensation delay1 reward T T = some x1)
    (h2 : fully_havest shares debt2 compensation delay2 reward T T = some x2) :
    x1.2.1 ≤ x2.2.1 := by
  obtain ⟨x11, x12, x13⟩ := x1
  obtain ⟨x21, x22, x23⟩ := x2
  obtain ⟨-, -, -, hnd1, -⟩ := fully_havest_some h1
  obtain ⟨-, -, -, hnd2, -⟩ := fully_havest_some h2
  have hf : 0 ≤ spec_fraction reward T := spec_fraction_nonneg reward T
  have hnum : (spec_fraction reward T * delay1 + compensation) * shares ≤
      (spec_fraction reward T * delay2 + compensation) * shares := by
    have hmul : spec_fraction reward T * delay1 ≤ spec_fraction reward T * delay2 :=
      mul_le_mul_of_nonneg_left (by exact_mod_cast hd) hf
    exact mul_le_mul_of_nonneg_right (by omega) (Int.ofNat_nonneg _)
  have hle := bigDiv_le_bigDiv hnum (hnd1 ▸ Int.ofNat_nonneg x12) (hnd2 ▸ Int.ofNat_nonneg x22)
  rw [← hnd1, ← hnd2] at hle
  exact_mod_cast hle

/-- C7 witness: settling at delay one then at delay two with reward 100 over
ten shares yields debts 100 and 200. -/
theorem c7_settle_monotone_witness :
    ((10, 100, (0 : Int)) : Nat × Nat × Int).2.1 ≤
      ((10, 200, (0 : Int)) : Nat × Nat × Int).2.1 :=
  c7_settle_monotone 10 0 100 10 1 2 0 0 (10, 100, 0) (10, 200, 0)
    (by decide) (by rfl) (by rfl)

/-- Inversion of a successful fully_unstake call: the share ordering held,
the stored debt matched the re-derived one, the participant record is zeroed
and the compensation is corrected as coded. -/
theorem fully_unstake_some {shares debt : Nat} {compensation : Int}
    {delay reward T N : Nat} {a b : Nat} {nc : Int}
    (h : fully_unstake shares debt compensation delay reward T N = some (a, b, nc)) :
    a = 0 ∧ b = 0 ∧ N ≤ T ∧
    (debt : Int) = bigDiv ((spec_fraction reward T * delay + compensation) * shares) PRECISION ∧
    nc = (if spec_fraction reward N = 0 then 0
          else compensation - (spec_fraction reward N - spec_fraction reward T) * delay) := by
  unfold fully_unstake at h
  rw [fractionalize_eq_spec, fractionalize_eq_spec] at h
  split at h
  · exact Option.noConfusion h
  · rename_i hNT
    dsimp only at h
    split at h
    · exact Option.noConfusion h
    · rename_i ed hed
      split at h
      · exact Option.noConfusion h
      · rename_i hdeq
        split at h
        · exact Option.noConfusion h
        · rename_i ncv hncv
          split at h
          · rename_i nc2 hnc2
            simp only [Option.some.injEq, Prod.mk.injEq] at h
            obtain ⟨he1, he2, he3⟩ := h
            subst he1; subst he2; subst he3
            have hed' := bigToU128_eq_some hed
            have hnc2' := bigToI128_eq_some hnc2
            have hdebt : debt = ed := by omega
            refine ⟨rfl, rfl, by omega, by rw [hdebt]; exact hed'.1, ?_⟩
            rw [hnc2'.1]
            split
            · rename_i hz
              rw [if_pos hz] at hncv
              exact (Option.some.inj hncv).symm
            · rename_i hz
              rw [if_neg hz] at hncv
              split at hncv
              · exact (Option.some.inj hncv).symm
              · exact Option.noConfusion hncv
          · exact Option.noConfusion h

/-- Inversion of a successful fully_stake call: the share ordering held, the
stored debt was zero, the compensation is corrected as coded and the fresh
debt is the truncated quotient over the new total. -/
theorem fully_stake_some {shares debt : Nat} {compensation : Int}
    {delay reward T N : Nat} {s2 nd : Nat} {nc : Int}
    (h : fully_stake shares debt compensation delay reward T N = some (s2, nd, nc)) :
    s2 = shares ∧ T ≤ N ∧ debt = 0 ∧
    nc = (if spec_fraction reward T = 0 then 0
          else compensation + (spec_fraction reward T - spec_fraction reward N) * delay) ∧
    (nd : Int) = bigDiv ((spec_fraction reward N * delay + nc) * shares) PRECISION := by
  unfold fully_stake at h
  rw [fractionalize_eq_spec, fractionalize_eq_spec] at h
  split at h
  · exact Option.noConfusion h
  · rename_i hguard
    dsimp only at h
    split at h
    · exact Option.noConfusion h
    · rename_i ncv hncv
      split at h
      · exact Option.noConfusion h
      · rename_i nd' hnd
        split at h
        · rename_i nc2 hnc2
          simp only [Option.some.injEq, Prod.mk.injEq] at h
          obtain ⟨he1, he2, he3⟩ := h
          subst he1; subst he2; subst he3
          have hnd' := bigToU128_eq_some hnd
          have hnc2' := bigToI128_eq_some hnc2
          have hTN : T ≤ N ∧ debt = 0 := by
            constructor
            · by_contra hx
              exact hguard (Or.inl (by omega))
            · by_contra hx
              exact hguard (Or.inr hx)
          have hncval : nc2 =
              (if spec_fraction reward T = 0 then 0
               else compensation + (spec_fraction reward T - spec_fraction reward N) * delay) := by
            rw [hnc2'.1]
            split
            · rename_i hz
              rw [if_pos hz] at hncv
              exact (Option.some.inj hncv).symm
            · rename_i hz
              rw [if_neg hz] at hncv
              split at hncv
              · exact (Option.some.inj hncv).symm
              · exact Option.noConfusion hncv
          refine ⟨rfl, hTN.1, hTN.2, hncval, ?_⟩
          rw [hnd'.1, (bigToI128_eq_some hnc2).1]
        · exact Option.noConfusion h

/-- C3 (amended): Withdraw-Shares fails when the total would grow, fails when
the stored debt differs from the expected debt re-derived with the truncated
(toward zero) Settle quotient, and on success zeroes the participant record
and corrects the compensation exactly as the claim states. -/
theorem c3_unstake_result :
    (∀ (shares debt : Nat) (compensation : Int) (delay reward T N : Nat),
      T < N → fully_unstake shares debt compensation delay reward T N = none) ∧
    (∀ (shares debt : Nat) (compensation : Int) (delay reward T N : Nat),
      (debt : Int) ≠ bigDiv ((spec_fraction reward T * delay + compensation) * shares) PRECISION →
      fully_unstake shares debt compensation delay reward T N = none) ∧
    (∀ (shares debt : Nat) (compensation : Int) (delay reward T N : Nat)
        (a b : Nat) (nc : Int),
      fully_unstake shares debt compensation delay reward T N = some (a, b, nc) →
      a = 0 ∧ b = 0 ∧ N ≤ T ∧
      nc = (if spec_fraction reward N = 0 then 0
            else compensation - (spec_fraction reward N - spec_fraction reward T) * delay)) := by
  refine ⟨?_, ?_, ?_⟩
  · intro shares debt compensation delay reward T N hTN
    unfold fully_unstake
    rw [if_pos hTN]
  · intro shares debt compensation delay reward T N hne
    cases hr : fully_unstake shares debt compensation delay reward T N with
    | none => rfl
    | some x =>
      obtain ⟨a, b, nc⟩ := x
      exact absurd (fully_unstake_some hr).2.2.2.1 hne
  · intro shares debt compensation delay reward T N a b nc h
    obtain ⟨h1, h2, h3, -, h5⟩ := fully_unstake_some h
    exact ⟨h1, h2, h3, h5⟩

/-- C3 witness: a growing total is refused, a mismatched debt is refused, and
a successful withdraw zeroes the record with the coded compensation. -/
theorem c3_unstake_result_witness :
    fully_unstake 0 0 0 0 0 1 2 = none ∧
    fully_unstake 1 5 0 0 0 1 1 = none ∧
    ((0 : Nat) = 0 ∧ (0 : Nat) = 0 ∧ (0 : Nat) ≤ 1 ∧
      (0 : Int) = (if spec_fraction 1 0 = 0 then 0
        else PRECISION - (spec_fraction 1 0 - spec_fraction 1 1) * (1 : Nat))) :=
  ⟨c3_unstake_result.1 0 0 0 0 0 1 2 (by decide),
   c3_unstake_result.2.1 1 5 0 0 0 1 1 (by decide),
   c3_unstake_result.2.2 1 2 PRECISION 1 1 1 0 0 0 0 (by rfl)⟩

/-- C3 counterexample: with negative compensation the stored debt differs
from the spec floor expected debt, yet the code accepts the withdraw because
it re-derives with truncation toward zero. -/
theorem c3_counterexample :
    fully_unstake 1 0 (-1) 0 0 1 1 = some (0, 0, 0) ∧
    spec_settle_newDebt 1 (-1) 0 0 1 = -1 ∧
    ¬(((0 : Nat) : Int) = spec_settle_newDebt 1 (-1) 0 0 1) := by
  refine ⟨by rfl, by rfl, ?_⟩
  intro hc
  rw [show spec_settle_newDebt 1 (-1) 0 0 1 = -1 from rfl] at hc
  exact absurd hc (by decide)

/-- C4 (amended): Deposit-Shares fails when the total would shrink or the
stored debt is nonzero; on success it keeps the shares, corrects the
compensation exactly as the claim states, and the fresh debt is the quotient
rounded toward zero, agreeing with the spec floor formula whenever the
numerator is non-negative. -/
theorem c4_stake_result :
    (∀ (shares debt : Nat) (compensation : Int) (delay reward T N : Nat),
      N < T ∨ debt ≠ 0 → fully_stake shares debt compensation delay reward T N = none) ∧
    (∀ (shares debt : Nat) (compensation : Int) (delay reward T N : Nat)
        (s2 nd : Nat) (nc : Int),
      fully_stake shares debt compensation delay reward T N = some (s2, nd, nc) →
      s2 = shares ∧ T ≤ N ∧ debt = 0 ∧
      nc = (if spec_fraction reward T = 0 then 0
            else compensation + (spec_fraction reward T - spec_fraction reward N) * delay) ∧
      (nd : Int) = bigDiv ((spec_fraction reward N * delay + nc) * shares) PRECISION ∧
      (0 ≤ (spec_fraction reward N * delay + nc) * shares →
        (nd : Int) = Int.fdiv ((spec_fraction reward N * delay + nc) * shares) PRECISION)) := by
  constructor
  · intro shares debt compensation delay reward T N hg
    unfold fully_stake
    rw [if_pos (by omega)]
  · intro shares debt compensation delay reward T N s2 nd nc h
    obtain ⟨h1, h2, h3, h4, h5⟩ := fully_stake_some h
    refine ⟨h1, h2, h3, h4, h5, ?_⟩
    intro hnn
    rw [h5, bigDiv_eq_floor hnn]

/-- C4 witness: a shrinking total is refused and a first deposit into an
empty pool computes debt one hundred, matching the spec floor formula. -/
theorem c4_stake_result_witness :
    fully_stake 0 0 0 0 0 2 1 = none ∧
    ((100 : Nat) : Int) = Int.fdiv ((spec_fraction 100 10 * 1 + 0) * 10) PRECISION :=
  ⟨c4_stake_result.1 0 0 0 0 0 2 1 (by omega),
   (c4_stake_result.2 10 0 0 1 100 0 10 10 100 0 (by rfl)).2.2.2.2.2 (by decide)⟩

/-- C4 counterexample: with negative compensation and delay zero the code
rounds the negative numerator toward zero and returns newDebt zero, while the
spec floor formula yields minus one. -/
theorem c4_counterexample :
    fully_stake 1 0 (-1) 0 1 2 2 = some (1, 0, -1) ∧
    Int.fdiv ((spec_fraction 1 2 * 0 + (-1)) * 1) PRECISION = -1 ∧
    ¬(((0 : Nat) : Int) = Int.fdiv ((spec_fraction 1 2 * 0 + (-1)) * 1) PRECISION) := by
  refine ⟨by rfl, by rfl, ?_⟩
  intro hc
  rw [show Int.fdiv ((spec_fraction 1 2 * 0 + (-1)) * 1) PRECISION = -1 from rfl] at hc
  exact absurd hc (by decide)

/-- C6 (amended): the Withdraw then Deposit round trip with unchanged total
restores the pre-transition debt exactly, provided the ratio at the
intermediate total T minus shares is nonzero. -/
theorem c6_roundtrip (shares debt : Nat) (compensation c1 : Int)
    (delay reward T : Nat) (s2 d2 : Nat) (c2 : Int)
    (hnf : spec_fraction reward (T - shares) ≠ 0)
    (h1 : fully_unstake shares debt compensation delay reward T (T - shares)
            = some (0, 0, c1))
    (h2 : fully_stake shares 0 c1 delay reward (T - shares) T = some (s2, d2, c2)) :
    d2 = debt := by
  obtain ⟨-, -, -, hdebt, hc1⟩ := fully_unstake_some h1
  obtain ⟨-, -, -, hnc, hnd⟩ := fully_stake_some h2
  rw [if_neg hnf] at hc1
  rw [if_neg hnf] at hnc
  have hcomp : c2 = compensation := by
    rw [hnc, hc1]
    ring
  rw [hcomp] at hnd
  rw [← hdebt] at hnd
  exact_mod_cast hnd

/-- C6 witness: one participant of two total shares withdraws and redeposits
at delay one; the debt zero is restored exactly. -/
theorem c6_roundtrip_witness : (0 : Nat) = 0 :=
  c6_roundtrip 1 0 0 (-500000000000000000) 1 1 2 1 0 0 (by decide) (by rfl) (by rfl)

/-- C6 counterexample: the sole staker of the pool (total one share) passes
the re-derivation check with debt two, withdraws to an empty pool (the zero
sentinel wipes the compensation), redeposits, and ends with debt one instead
of the pre-transition debt two. -/
theorem c6_counterexample :
    fully_unstake 1 2 PRECISION 1 1 1 0 = some (0, 0, 0) ∧
    fully_stake 1 0 0 1 1 0 1 = some (1, 1, 0) ∧ (1 : Nat) ≠ 2 :=
  ⟨by rfl, by rfl, by decide⟩

/-!
Embedding of the epoch clock adapter and the pool constructor checks from
processor.rs.
-/

/-- Wrap of an integer into the signed 64-bit range, modelling release-mode
wrapping subtraction on i64. -/
def wrapI64 (x : Int) : Int := (x + 2 ^ 63) % 2 ^ 64 - 2 ^ 63

/-- The Rust cast from i64 to u64: reinterpretation modulo two to the 64. -/
def castU64 (x : Int) : Nat := (x % 2 ^ 64).toNat

/-- Processor::estimate_delay from processor.rs: the difference between the
current timestamp and the pool genesis timestamp, wrapped through i64 and
cast to u64, divided by the pool period. A zero period aborts the program
with a division-by-zero panic, modelled as none. -/
def estimate_delay (now genesis_timestamp : Int) (period : Nat) : Option Nat :=
  if period = 0 then none
  else some (castU64 (wrapI64 (now - genesis_timestamp)) / period)

/-- The scalar validation the pool constructor performs on its instruction
arguments in processor.rs: only a zero reward is rejected; the period is
stored as given, with no check at all. -/
def init_stake_pool_check (reward period : Nat) : Option (Nat × Nat) :=
  if reward = 0 then none else some (reward, period)

theorem castU64_wrapI64 {x : Int} (h0 : 0 ≤ x) (h1 : x < 2 ^ 64) :
    castU64 (wrapI64 x) = x.toNat := by
  unfold castU64 wrapI64
  omega

/-- C8 (amended): whenever the clock reads at or after the pool genesis and
the period is nonzero, estimate_delay returns the floor of the elapsed time
over the period; an earlier clock wraps modulo two to the 64 instead. -/
theorem c8_delay_floor (now genesis_timestamp : Int) (period : Nat)
    (hg : -(2 ^ 63) ≤ genesis_timestamp) (hn : now < 2 ^ 63)
    (hle : genesis_timestamp ≤ now) (hp : 0 < period) :
    estimate_delay now genesis_timestamp period
        = some ((now - genesis_timestamp).toNat / period) ∧
    (((now - genesis_timestamp).toNat / period : Nat) : Int)
        = Int.fdiv (now - genesis_timestamp) (period : Int) := by
  constructor
  · unfold estimate_delay
    rw [if_neg (by omega), castU64_wrapI64 (by omega) (by omega)]
  · rw [Int.fdiv_eq_ediv _ (Int.ofNat_nonneg _)]
    generalize hE : (now - genesis_timestamp).toNat = n
    rw [show now - genesis_timestamp = (n : Int) by omega]
    rw [Int.ofNat_tdiv]
    exact Int.tdiv_eq_ediv (Int.ofNat_nonneg _) (Int.ofNat_nonneg _)

/-- C8 witness: clock ten, genesis three, period two gives delay three. -/
theorem c8_delay_floor_witness :
    (estimate_delay 10 3 2 = some (((10 : Int) - 3).toNat / 2) ∧
      ((((10 : Int) - 3).toNat / 2 : Nat) : Int) = Int.fdiv ((10 : Int) - 3) (2 : Int)) :=
  c8_delay_floor 10 3 2 (by decide) (by decide) (by decide) (by decide)

/-- C8 counterexample: a clock one second before genesis makes the i64
difference negative; the cast wraps it to the largest u64 value, so the code
returns two to the 64 minus one while the spec floor formula yields minus
one. -/
theorem c8_counterexample :
    estimate_delay 0 1 1 = some (2 ^ 64 - 1) ∧
    Int.fdiv ((0 : Int) - 1) (1 : Int) = -1 ∧
    ¬(((2 ^ 64 - 1 : Nat) : Int) = Int.fdiv ((0 : Int) - 1) (1 : Int)) := by
  refine ⟨by rfl, by rfl, ?_⟩
  intro hc
  rw [show Int.fdiv ((0 : Int) - 1) (1 : Int) = -1 from rfl] at hc
  exact absurd hc (by decide)

/-- C9: the pool constructor accepts a zero period (it only rejects a zero
reward), after which estimate_delay divides by zero and aborts on every
Stake, Unstake and Harvest operation. -/
theorem c9_zero_period_accepted :
    init_stake_pool_check 1 0 = some (1, 0) ∧
    estimate_delay 5 0 0 = none :=
  ⟨by rfl, by rfl⟩

/-!
Embedding of the record serialization from schema/debt.rs and
schema/stake_pool.rs. Byte buffers are lists of Nat; the little-endian
encodings mirror to_le_bytes and from_le_bytes of the Rust integer types.
-/

/-- Little-endian byte encoding of an unsigned integer on w bytes. -/
def natToLe : Nat → Nat → List Nat
  | 0, _ => []
  | w + 1, n => n % 256 :: natToLe w (n / 256)

/-- Little-endian decoding of a byte list into an unsigned integer. -/
def leToNat : List Nat → Nat
  | [] => 0
  | b :: bs => b + 256 * leToNat bs

/-- Little-endian encoding of a signed integer on w bytes, through its
unsigned two-complement representative (Rust to_le_bytes). -/
def intToLe (w : Nat) (x : Int) : List Nat := natToLe w (x % 2 ^ (8 * w)).toNat

/-- Little-endian decoding of a byte list into a signed w-byte integer
(Rust from_le_bytes). -/
def leToInt (w : Nat) (bs : List Nat) : Int :=
  if leToNat bs < 2 ^ (8 * w - 1) then (leToNat bs : Int)
  else (leToNat bs : Int) - 2 ^ (8 * w)

theorem natToLe_length (w n : Nat) : (natToLe w n).length = w := by
  induction w generalizing n with
  | zero => rfl
  | succ w ih => simp [natToLe, ih]

theorem leToNat_natToLe (w n : Nat) (h : n < 256 ^ w) : leToNat (natToLe w n) = n := by
  induction w generalizing n with
  | zero =>
    simp only [natToLe, leToNat]
    simp only [pow_zero] at h
    omega
  | succ w ih =>
    simp only [natToLe, leToNat]
    rw [pow_succ] at h
    rw [ih (n / 256) (by omega)]
    omega

theorem leToInt_intToLe (w : Nat) (x : Int) (hw : 0 < w)
    (h0 : -(2 ^ (8 * w - 1)) ≤ x) (h1 : x < 2 ^ (8 * w - 1)) :
    leToInt w (intToLe w x) = x := by
  have hsplit : (2 : Int) ^ (8 * w) = 2 ^ (8 * w - 1) * 2 := by
    rw [← pow_succ]
    congr 1
    omega
  have hN : (0 : Int) < 2 ^ (8 * w) := by positivity
  have hmodlo : 0 ≤ x % 2 ^ (8 * w) := Int.emod_nonneg x (ne_of_gt hN)
  have hmodhi : x % 2 ^ (8 * w) < 2 ^ (8 * w) := Int.emod_lt_of_pos x hN
  have hc256 : ((256 : Nat) : Int) ^ w = 2 ^ (8 * w) := by
    rw [show ((256 : Nat) : Int) = 2 ^ 8 by rfl, ← pow_mul]
  have hcastH : (((2 : Nat) ^ (8 * w - 1) : Nat) : Int) = (2 : Int) ^ (8 * w - 1) := by
    push_cast
    rfl
  have hbound : (x % 2 ^ (8 * w)).toNat < 256 ^ w := by
    have : (((256 : Nat) ^ w : Nat) : Int) = 2 ^ (8 * w) := by
      push_cast
      exact hc256
    omega
  have hmod : x % 2 ^ (8 * w) = if 0 ≤ x then x else x + 2 ^ (8 * w) := by
    split
    · exact Int.emod_eq_of_lt (by assumption) (by omega)
    · rename_i hneg
      have key := Int.add_mul_emod_self_left x (2 ^ (8 * w)) 1
      rw [mul_one] at key
      rw [← key]
      exact Int.emod_eq_of_lt (by omega) (by omega)
  unfold leToInt intToLe
  rw [leToNat_natToLe w _ hbound]
  split
  · rename_i hlt
    omega
  · rename_i hge
    omega

/-- The Debt record of schema/debt.rs: three 32-byte public keys, a u128 debt
and a boolean flag. Public keys are kept as raw byte lists. -/
structure Debt where
  stake_pool : List Nat
  owner : List Nat
  account : List Nat
  debt : Nat
  is_init : Bool
deriving DecidableEq

/-- Debt::pack_into_slice from schema/debt.rs: the 113-byte layout
32 + 32 + 32 + 16 + 1. -/
def Debt.pack_into_slice (d : Debt) : List Nat :=
  d.stake_pool ++ d.owner ++ d.account ++ natToLe 16 d.debt ++
    [if d.is_init then 1 else 0]

/-- Debt::unpack_from_slice from schema/debt.rs: reads the 113-byte layout
and rejects a flag byte other than zero or one. -/
def Debt.unpack_from_slice (src : List Nat) : Option Debt :=
  if src.length = 113 then
    if src.drop 112 = [0] then
      some ⟨src.take 32, (src.drop 32).take 32, (src.drop 64).take 32,
            leToNat ((src.drop 96).take 16), false⟩
    else if src.drop 112 = [1] then
      some ⟨src.take 32, (src.drop 32).take 32, (src.drop 64).take 32,
            leToNat ((src.drop 96).take 16), true⟩
    else none
  else none

/-- Well-formedness of a Debt record: the field values fit the Rust types of
schema/debt.rs. -/
def Debt.wf (d : Debt) : Prop :=
  d.stake_pool.length = 32 ∧ d.owner.length = 32 ∧ d.account.length = 32 ∧
    d.debt < 2 ^ 128

theorem take_append_len {α : Type} {a : List α} (b : List α) {n : Nat}
    (h : a.length = n) : (a ++ b).take n = a := by
  subst h
  exact List.take_left a b

theorem drop_append_len {α : Type} {a : List α} (b : List α) {n : Nat}
    (h : a.length = n) : (a ++ b).drop n = b := by
  subst h
  exact List.drop_left a b

theorem drop_last_one {l : List Nat} {n : Nat} (h : l.length = n + 1) :
    l.drop n = [l.getD n 0] := by
  have hlt : n < l.length := by omega
  rw [List.drop_eq_getElem_cons hlt, List.drop_eq_nil_of_le (by omega),
    List.getD_eq_getElem l 0 hlt]

/-- Packing a well formed Debt record and unpacking it restores the record. -/
theorem debt_unpack_pack (d : Debt) (h : d.wf) :
    Debt.unpack_from_slice (Debt.pack_into_slice d) = some d := by
  obtain ⟨sp, ow, ac, db, ini⟩ := d
  obtain ⟨h1, h2, h3, h4⟩ := h
  dsimp only at h1 h2 h3 h4
  have hdb : db < 256 ^ 16 := by
    have hp : (256 : Nat) ^ 16 = 2 ^ 128 := by norm_num
    omega
  unfold Debt.pack_into_slice Debt.unpack_from_slice
  dsimp only
  simp only [List.append_assoc]
  cases ini with
  | false =>
    simp only [show (if ((false : Bool) = true) then (1 : Nat) else 0) = 0 from rfl]
    have e1 : (sp ++ (ow ++ (ac ++ (natToLe 16 db ++ [0])))).drop 32
        = ow ++ (ac ++ (natToLe 16 db ++ [0])) := drop_append_len _ h1
    have e2 : (sp ++ (ow ++ (ac ++ (natToLe 16 db ++ [0])))).drop 64
        = ac ++ (natToLe 16 db ++ [0]) := by
      rw [show (64 : Nat) = 32 + 32 from rfl, ← List.drop_drop, e1]
      exact drop_append_len _ h2
    have e3 : (sp ++ (ow ++ (ac ++ (natToLe 16 db ++ [0])))).drop 96
        = natToLe 16 db ++ [0] := by
      rw [show (96 : Nat) = 64 + 32 from rfl, ← List.drop_drop, e2]
      exact drop_append_len _ h3
    have e4 : (sp ++ (ow ++ (ac ++ (natToLe 16 db ++ [0])))).drop 112 = [0] := by
      rw [show (112 : Nat) = 96 + 16 from rfl, ← List.drop_drop, e3]
      exact drop_append_len _ (natToLe_length 16 db)
    have hlen : (sp ++ (ow ++ (ac ++ (natToLe 16 db ++ [0])))).length = 113 := by
      simp [List.length_append, natToLe_length, h1, h2, h3]
    rw [if_pos hlen, e4, if_pos rfl, take_append_len _ h1, e1,
      take_append_len _ h2, e2, take_append_len _ h3, e3,
      take_append_len _ (natToLe_length 16 db), leToNat_natToLe 16 db hdb]
  | true =>
    simp only [if_true]
    have e1 : (sp ++ (ow ++ (ac ++ (natToLe 16 db ++ [1])))).drop 32
        = ow ++ (ac ++ (natToLe 16 db ++ [1])) := drop_append_len _ h1
    have e2 : (sp ++ (ow ++ (ac ++ (natToLe 16 db ++ [1])))).drop 64
        = ac ++ (natToLe 16 db ++ [1]) := by
      rw [show (64 : Nat) = 32 + 32 from rfl, ← List.drop_drop, e1]
      exact drop_append_len _ h2
    have e3 : (sp ++ (ow ++ (ac ++ (natToLe 16 db ++ [1])))).drop 96
        = natToLe 16 db ++ [1] := by
      rw [show (96 : Nat) = 64 + 32 from rfl, ← List.drop_drop, e2]
      exact drop_append_len _ h3
    have e4 : (sp ++ (ow ++ (ac ++ (natToLe 16 db ++ [1])))).drop 112 = [1] := by
      rw [show (112 : Nat) = 96 + 16 from rfl, ← List.drop_drop, e3]
      exact drop_append_len _ (natToLe_length 16 db)
    have hlen : (sp ++ (ow ++ (ac ++ (natToLe 16 db ++ [1])))).length = 113 := by
      simp [List.length_append, natToLe_length, h1, h2, h3]
    rw [if_pos hlen, e4, if_neg (by decide), if_pos rfl, take_append_len _ h1, e1,
      take_append_len _ h2, e2, take_append_len _ h3, e3,
      take_append_len _ (natToLe_length 16 db), leToNat_natToLe 16 db hdb]

/-- For a buffer of the exact length, unpacking a Debt record succeeds if and
only if the flag byte is zero or one. -/
theorem debt_unpack_isSome (src : List Nat) (h : src.length = 113) :
    (Debt.unpack_from_slice src).isSome ↔
      (src.getD 112 0 = 0 ∨ src.getD 112 0 = 1) := by
  unfold Debt.unpack_from_slice
  rw [if_pos h, drop_last_one (show src.length = 112 + 1 by omega)]
  generalize src.getD 112 0 = v
  by_cases h0 : v = 0
  · subst h0
    rw [if_pos rfl]
    simp
  · rw [if_neg (by simp [h0])]
    by_cases h1 : v = 1
    · subst h1
      rw [if_pos rfl]
      simp
    · rw [if_neg (by simp [h1])]
      simp [h0, h1]

/-- The three pool states of schema/stake_pool.rs. -/
inductive StakePoolState
  | Uninit
  | Inited
  | Frozen
deriving DecidableEq

/-- The state tag as serialized (the state cast to u8 in Rust). -/
def StakePoolState.toU8 : StakePoolState → Nat
  | StakePoolState.Uninit => 0
  | StakePoolState.Inited => 1
  | StakePoolState.Frozen => 2

/-- The derived TryFromPrimitive conversion of the state byte: bytes zero,
one and two name the three states, anything else is rejected. -/
def StakePoolState.try_from_primitive (b : Nat) : Option StakePoolState :=
  if b = 0 then some StakePoolState.Uninit
  else if b = 1 then some StakePoolState.Inited
  else if b = 2 then some StakePoolState.Frozen
  else none

theorem try_from_toU8 (s : StakePoolState) :
    StakePoolState.try_from_primitive s.toU8 = some s := by
  cases s <;> rfl

/-- The StakePool record of schema/stake_pool.rs. Public keys are kept as raw
byte lists. -/
structure StakePool where
  owner : List Nat
  state : StakePoolState
  genesis_timestamp : Int
  total_shares : Nat
  mint_share : List Nat
  mint_token : List Nat
  treasury_token : List Nat
  reward : Nat
  period : Nat
  compensation : Int
  treasury_sen : List Nat
deriving DecidableEq

/-- StakePool::pack_into_slice from schema/stake_pool.rs: the 209-byte layout
32 + 1 + 8 + 8 + 32 + 32 + 32 + 8 + 8 + 16 + 32. -/
def StakePool.pack_into_slice (p : StakePool) : List Nat :=
  p.owner ++ [p.state.toU8] ++ intToLe 8 p.genesis_timestamp ++
    natToLe 8 p.total_shares ++ p.mint_share ++ p.mint_token ++
    p.treasury_token ++ natToLe 8 p.reward ++ natToLe 8 p.period ++
    intToLe 16 p.compensation ++ p.treasury_sen

/-- StakePool::unpack_from_slice from schema/stake_pool.rs: reads the
209-byte layout and rejects a state byte that names no state. -/
def StakePool.unpack_from_slice (src : List Nat) : Option StakePool :=
  if src.length = 209 then
    match StakePoolState.try_from_primitive (src.getD 32 0) with
    | none => none
    | some st =>
      some ⟨src.take 32, st, leToInt 8 ((src.drop 33).take 8),
            leToNat ((src.drop 41).take 8), (src.drop 49).take 32,
            (src.drop 81).take 32, (src.drop 113).take 32,
            leToNat ((src.drop 145).take 8), leToNat ((src.drop 153).take 8),
            leToInt 16 ((src.drop 161).take 16), (src.drop 177).take 32⟩
  else none

/-- Well-formedness of a StakePool record: the field values fit the Rust
types of schema/stake_pool.rs. -/
def StakePool.wf (p : StakePool) : Prop :=
  p.owner.length = 32 ∧ p.mint_share.length = 32 ∧ p.mint_token.length = 32 ∧
  p.treasury_token.length = 32 ∧ p.treasury_sen.length = 32 ∧
  -(2 ^ 63) ≤ p.genesis_timestamp ∧ p.genesis_timestamp < 2 ^ 63 ∧
  p.total_shares < 2 ^ 64 ∧ p.reward < 2 ^ 64 ∧ p.period < 2 ^ 64 ∧
  -(2 ^ 127) ≤ p.compensation ∧ p.compensation < 2 ^ 127

theorem intToLe_length (w : Nat) (x : Int) : (intToLe w x).length = w :=
  natToLe_length w _

theorem getD_of_drop_cons {l : List Nat} {n v : Nat} {r : List Nat}
    (h : l.drop n = v :: r) (hn : n < l.length) : l.getD n 0 = v := by
  rw [List.getD_eq_getElem l 0 hn]
  have h2 := h.symm.trans (List.drop_eq_getElem_cons hn)
  exact (List.cons.inj h2).1.symm

/-- For a buffer of the exact length, unpacking a StakePool record succeeds
if and only if the state byte is zero, one or two. -/
theorem stake_pool_unpack_isSome (src : List Nat) (h : src.length = 209) :
    (StakePool.unpack_from_slice src).isSome ↔
      (src.getD 32 0 = 0 ∨ src.getD 32 0 = 1 ∨ src.getD 32 0 = 2) := by
  unfold StakePool.unpack_from_slice StakePoolState.try_from_primitive
  rw [if_pos h]
  generalize src.getD 32 0 = v
  by_cases h0 : v = 0
  · subst h0
    rw [if_pos rfl]
    simp
  · rw [if_neg h0]
    by_cases h1 : v = 1
    · subst h1
      rw [if_pos rfl]
      simp
    · rw [if_neg h1]
      by_cases h2 : v = 2
      · subst h2
        rw [if_pos rfl]
        simp
      · rw [if_neg h2]
        simp [h0, h1, h2]

/-- Packing a well formed StakePool record and unpacking it restores the
record. -/
theorem stake_pool_unpack_pack (p : StakePool) (h : p.wf) :
    StakePool.unpack_from_slice (StakePool.pack_into_slice p) = some p := by
  obtain ⟨ow, st, g, ts, ms, mt, tt, rw0, pd, cp, sen⟩ := p
  obtain ⟨how, hms, hmt, htt, hsen, hg0, hg1, hts, hrw, hpd, hcp0, hcp1⟩ := h
  dsimp only at how hms hmt htt hsen hg0 hg1 hts hrw hpd hcp0 hcp1
  have h256 : (256 : Nat) ^ 8 = 2 ^ 64 := by norm_num
  unfold StakePool.pack_into_slice StakePool.unpack_from_slice
  dsimp only
  simp only [List.append_assoc]
  set pk := ow ++ ([StakePoolState.toU8 st] ++ (intToLe 8 g ++ (natToLe 8 ts ++
    (ms ++ (mt ++ (tt ++ (natToLe 8 rw0 ++ (natToLe 8 pd ++
    (intToLe 16 cp ++ sen))))))))) with hpk
  have d0 : pk.take 32 = ow := by
    rw [hpk]
    exact take_append_len _ how
  have d32 : pk.drop 32 = [StakePoolState.toU8 st] ++ (intToLe 8 g ++ (natToLe 8 ts ++
      (ms ++ (mt ++ (tt ++ (natToLe 8 rw0 ++ (natToLe 8 pd ++
      (intToLe 16 cp ++ sen)))))))) := by
    rw [hpk]
    exact drop_append_len _ how
  have d33 : pk.drop 33 = intToLe 8 g ++ (natToLe 8 ts ++ (ms ++ (mt ++ (tt ++
      (natToLe 8 rw0 ++ (natToLe 8 pd ++ (intToLe 16 cp ++ sen))))))) := by
    rw [show (33 : Nat) = 32 + 1 from rfl, ← List.drop_drop, d32]
    exact drop_append_len _ rfl
  have d41 : pk.drop 41 = natToLe 8 ts ++ (ms ++ (mt ++ (tt ++ (natToLe 8 rw0 ++
      (natToLe 8 pd ++ (intToLe 16 cp ++ sen)))))) := by
    rw [show (41 : Nat) = 33 + 8 from rfl, ← List.drop_drop, d33]
    exact drop_append_len _ (intToLe_length 8 g)
  have d49 : pk.drop 49 = ms ++ (mt ++ (tt ++ (natToLe 8 rw0 ++ (natToLe 8 pd ++
      (intToLe 16 cp ++ sen))))) := by
    rw [show (49 : Nat) = 41 + 8 from rfl, ← List.drop_drop, d41]
    exact drop_append_len _ (natToLe_length 8 ts)
  have d81 : pk.drop 81 = mt ++ (tt ++ (natToLe 8 rw0 ++ (natToLe 8 pd ++
      (intToLe 16 cp ++ sen)))) := by
    rw [show (81 : Nat) = 49 + 32 from rfl, ← List.drop_drop, d49]
    exact drop_append_len _ hms
  have d113 : pk.drop 113 = tt ++ (natToLe 8 rw0 ++ (natToLe 8 pd ++
      (intToLe 16 cp ++ sen))) := by
    rw [show (113 : Nat) = 81 + 32 from rfl, ← List.drop_drop, d81]
    exact drop_append_len _ hmt
  have d145 : pk.drop 145 = natToLe 8 rw0 ++ (natToLe 8 pd ++
      (intToLe 16 cp ++ sen)) := by
    rw [show (145 : Nat) = 113 + 32 from rfl, ← List.drop_drop, d113]
    exact drop_append_len _ htt
  have d153 : pk.drop 153 = natToLe 8 pd ++ (intToLe 16 cp ++ sen) := by
    rw [show (153 : Nat) = 145 + 8 from rfl, ← List.drop_drop, d145]
    exact drop_append_len _ (natToLe_length 8 rw0)
  have d161 : pk.drop 161 = intToLe 16 cp ++ sen := by
    rw [show (161 : Nat) = 153 + 8 from rfl, ← List.drop_drop, d153]
    exact drop_append_len _ (natToLe_length 8 pd)
  have d177 : pk.drop 177 = sen := by
    rw [show (177 : Nat) = 161 + 16 from rfl, ← List.drop_drop, d161]
    exact drop_append_len _ (intToLe_length 16 cp)
  have hlen : pk.length = 209 := by
    rw [hpk]
    simp [List.length_append, natToLe_length, intToLe_length, how, hms, hmt,
      htt, hsen]
  have hget : pk.getD 32 0 = StakePoolState.toU8 st :=
    getD_of_drop_cons d32 (by omega)
  rw [if_pos hlen, hget, try_from_toU8]
  dsimp only
  rw [d0, d33, take_append_len _ (intToLe_length 8 g),
    leToInt_intToLe 8 g (by norm_num) (by omega) (by omega),
    d41, take_append_len _ (natToLe_length 8 ts),
    leToNat_natToLe 8 ts (by omega),
    d49, take_append_len _ hms,
    d81, take_append_len _ hmt,
    d113, take_append_len _ htt,
    d145, take_append_len _ (natToLe_length 8 rw0),
    leToNat_natToLe 8 rw0 (by omega),
    d153, take_append_len _ (natToLe_length 8 pd),
    leToNat_natToLe 8 pd (by omega),
    d161, take_append_len _ (intToLe_length 16 cp),
    leToInt_intToLe 16 cp (by norm_num) (by omega) (by omega),
    d177, show sen.take 32 = sen by rw [← hsen]; exact List.take_length sen]

/-- C10: record serialization round-trips for well formed Debt and StakePool
records, and unpacking a full-length buffer fails exactly when the Debt flag
byte is neither zero nor one, or the StakePool state byte names no state. -/
theorem c10_serialization :
    (∀ d : Debt, d.wf → Debt.unpack_from_slice (Debt.pack_into_slice d) = some d) ∧
    (∀ p : StakePool, p.wf →
      StakePool.unpack_from_slice (StakePool.pack_into_slice p) = some p) ∧
    (∀ src : List Nat, src.length = 113 →
      ((Debt.unpack_from_slice src).isSome ↔
        (src.getD 112 0 = 0 ∨ src.getD 112 0 = 1))) ∧
    (∀ src : List Nat, src.length = 209 →
      ((StakePool.unpack_from_slice src).isSome ↔
        (src.getD 32 0 = 0 ∨ src.getD 32 0 = 1 ∨ src.getD 32 0 = 2))) :=
  ⟨debt_unpack_pack, stake_pool_unpack_pack, debt_unpack_isSome,
    stake_pool_unpack_isSome⟩

/-- C10 witness: a concrete Debt record and a concrete StakePool record
round-trip, an all-zero Debt buffer unpacks, and a StakePool buffer with
state byte seven is rejected. -/
theorem c10_serialization_witness :
    Debt.unpack_from_slice (Debt.pack_into_slice
      ⟨List.replicate 32 0, List.replicate 32 1, List.replicate 32 2, 5, true⟩)
      = some ⟨List.replicate 32 0, List.replicate 32 1, List.replicate 32 2, 5, true⟩ ∧
    StakePool.unpack_from_slice (StakePool.pack_into_slice
      ⟨List.replicate 32 0, StakePoolState.Inited, -7, 3, List.replicate 32 1,
       List.replicate 32 2, List.replicate 32 3, 4, 5, -6, List.replicate 32 4⟩)
      = some ⟨List.replicate 32 0, StakePoolState.Inited, -7, 3, List.replicate 32 1,
       List.replicate 32 2, List.replicate 32 3, 4, 5, -6, List.replicate 32 4⟩ ∧
    ((Debt.unpack_from_slice (List.replicate 113 0)).isSome ↔
      ((List.replicate 113 0).getD 112 0 = 0 ∨ (List.replicate 113 0).getD 112 0 = 1)) ∧
    ((StakePool.unpack_from_slice (List.replicate 209 7)).isSome ↔
      ((List.replicate 209 7).getD 32 0 = 0 ∨ (List.replicate 209 7).getD 32 0 = 1 ∨
        (List.replicate 209 7).getD 32 0 = 2)) :=
  ⟨c10_serialization.1 _ (by norm_num [Debt.wf]),
   c10_serialization.2.1 _ (by norm_num [StakePool.wf]),
   c10_serialization.2.2.1 _ (by simp),
   c10_serialization.2.2.2 _ (by simp)⟩
